import Mathlib

/-!
Verification of the request-construction core of the chargify-python client.

The repository contains two implementations of the client:
  * `src/chargify.py` (the legacy module), modelled below with suffix `_v1`;
  * `src/chargify/chargify.py` (the package module), modelled with suffix `_v2`.

Python values that appear as keyword-argument values are modelled by `Value`
(integers and strings, the types the API accepts for identifiers and query
parameters).  Keyword-argument dictionaries are association lists with the
usual Python-dict operations (`dictGet` models `d.get(k)`, `dictRemove`
models the removal performed by `d.pop(k, None)`).  A `data` payload passes
through the code untouched; the result's body is `Option Value`, where
`none` stands for the default empty mapping `{}` used when no `data`
keyword was supplied.
-/

/-- A Python value usable as a keyword-argument value: an int or a str. -/
inductive Value where
  | vInt (n : Int)
  | vStr (s : String)
deriving DecidableEq, Repr

/-- Python truthiness: a nonzero int or a nonempty string is truthy. -/
def Value.truthy : Value → Bool
  | .vInt n => n != 0
  | .vStr s => s != ""

/-- Python `str(value)`: decimal rendering for ints, identity for strings. -/
def Value.str : Value → String
  | .vInt n => toString n
  | .vStr s => s

/-- A Python keyword-argument dictionary, as an association list. -/
abbrev Kwargs := List (String × Value)

/-- Dictionary lookup, modelling `d.get(k)` / `d.pop(k, ...)`s return value. -/
def dictGet {κ α : Type} [DecidableEq κ] (k : κ) : List (κ × α) → Option α
  | [] => none
  | (k', v) :: t => if k' = k then some v else dictGet k t

/-- Removal of a key, modelling the removal side of `d.pop(k, None)`. -/
def dictRemove {κ α : Type} [DecidableEq κ] (k : κ) : List (κ × α) → List (κ × α)
  | [] => []
  | (k', v) :: t => if k' = k then dictRemove k t else (k', v) :: dictRemove k t

/-- Python `list.index(x)` returning the first index of `x`, `none` when absent
(where Python raises `ValueError`). -/
def pyIndex (n : String) : List String → Option Nat
  | [] => none
  | a :: t => if a = n then some 0 else (pyIndex n t).map (· + 1)

/-- Python `list.insert(i, x)`: insert `x` before position `i`, appending when
`i` is not less than the length. -/
def pyInsert : Nat → String → List String → List String
  | 0, x, l => x :: l
  | _ + 1, x, [] => [x]
  | n + 1, x, a :: l => a :: pyInsert n x l

/-- ASCII lowering of a character, as used by `str.lower()` on the ASCII
format strings this client deals with. -/
def pyLowerChar (c : Char) : Char :=
  if 65 ≤ c.toNat && c.toNat ≤ 90 then Char.ofNat (c.toNat + 32) else c

/-- Model of Python `s.lower()` (the format strings involved are ASCII). -/
def pyLower (s : String) : String :=
  String.mk (s.data.map pyLowerChar)

/-- Whether the character list `sub` is a prefix of the second list. -/
def charsPrefixOf : List Char → List Char → Bool
  | [], _ => true
  | _ :: _, [] => false
  | a :: s, b :: t => a == b && charsPrefixOf s t

/-- Whether `sub` occurs as a contiguous sublist. -/
def charsContainSub (sub : List Char) : List Char → Bool
  | [] => sub.isEmpty
  | c :: rest => charsPrefixOf sub (c :: rest) || charsContainSub sub rest

/-- Model of the Python substring test `sub in s`. -/
def strContains (s sub : String) : Bool :=
  charsContainSub sub.data s.data

/-- Maps certain function names to HTTP verbs (`VERBS` in both modules). -/
def VERBS : List (String × String) :=
  [("create", "POST"), ("read", "GET"), ("update", "PUT"), ("delete", "DELETE")]

/-- The identifier-to-path-segment bindings of `src/chargify.py`. -/
def IDENTIFIERS_v1 : List (String × String) :=
  [("customer_id", "customers"),
   ("product_id", "products"),
   ("subscription_id", "subscriptions"),
   ("component_id", "components"),
   ("handle", "handle")]

/-- The identifier-to-path-segment bindings of `src/chargify/chargify.py`. -/
def IDENTIFIERS_v2 : List (String × String) :=
  [("customer_id", "customers"),
   ("product_id", "products"),
   ("subscription_id", "subscriptions"),
   ("component_id", "components"),
   ("handle", "handle"),
   ("statement_id", "statements"),
   ("product_family_id", "product_families"),
   ("coupon_id", "coupons"),
   ("code_id", "codes"),
   ("transaction_id", "transactions"),
   ("usage_id", "usages"),
   ("migration_id", "migrations"),
   ("payment_profile_id", "payment_profiles"),
   ("invoice_id", "invoices")]

/-- Valid response formats (both modules). -/
def VALID_FORMATS : List String := ["json", "xml"]

/-- The identifier-extraction loop of `src/chargify.py`: for each binding in
order, pop the keyword; a truthy value is appended (stringified) at the end
of the path. -/
def extractIdentifiersOld : List (String × String) → List String → Kwargs →
    List String × Kwargs
  | [], path, kw => (path, kw)
  | (identifier, _) :: rest, path, kw =>
    match dictGet identifier kw with
    | some v =>
      if v.truthy then
        extractIdentifiersOld rest (path ++ [v.str]) (dictRemove identifier kw)
      else
        extractIdentifiersOld rest path (dictRemove identifier kw)
    | none => extractIdentifiersOld rest path (dictRemove identifier kw)

/-- The identifier-extraction loop of `src/chargify/chargify.py`: a truthy
value is inserted immediately after the first occurrence of the bound
resource-name segment (`path.insert(path.index(name) + 1, str(value))`);
when the segment is absent, `path.index` raises `ValueError`, modelled by
the `error` case, which carries the keyword-argument dictionary as it stood
at the raise point. -/
def extractIdentifiersNew : List (String × String) → List String → Kwargs →
    Except Kwargs (List String × Kwargs)
  | [], path, kw => .ok (path, kw)
  | (identifier, name) :: rest, path, kw =>
    match dictGet identifier kw with
    | some v =>
      if v.truthy then
        match pyIndex name path with
        | some idx =>
          extractIdentifiersNew rest (pyInsert (idx + 1) v.str path)
            (dictRemove identifier kw)
        | none => .error (dictRemove identifier kw)
      else
        extractIdentifiersNew rest path (dictRemove identifier kw)
    | none => extractIdentifiersNew rest path (dictRemove identifier kw)

/-- The list of stringified truthy identifier values popped by the
`src/chargify.py` extraction loop, in binding order; these are exactly the
segments that loop appends at the end of the path. -/
def pushedValues : List (String × String) → Kwargs → List String
  | [], _ => []
  | (k, _) :: rest, kw =>
    match dictGet k kw with
    | some v =>
      if v.truthy then v.str :: pushedValues rest (dictRemove k kw)
      else pushedValues rest (dictRemove k kw)
    | none => pushedValues rest (dictRemove k kw)

/-- Removal of every identifier keyword of `ids` from a keyword-argument
dictionary, in binding order; both extraction loops transform their
dictionary this way. -/
def removeKeysFrom : List (String × String) → Kwargs → Kwargs
  | [], kw => kw
  | (k, _) :: rest, kw => removeKeysFrom rest (dictRemove k kw)

/-- Whether `b` occurs somewhere immediately after `a` in the list. -/
def adjacentB (a b : String) : List String → Bool
  | [] => false
  | [_] => false
  | c :: d :: t => (c = a && d = b) || adjacentB a b (d :: t)

/-- An error escaping `construct_request`: the `IndexError` from `path[-1]`
on an empty path, or the `ValueError` from `path.index` (carrying the
keyword-argument dictionary at the raise point, see
`extractIdentifiersNew`). -/
inductive PyErr where
  | indexError
  | valueError (kwargsAtRaise : Kwargs)
deriving DecidableEq, Repr

/-- The Python-observable exception kind of a `PyErr`: a Python `ValueError`
carries no keyword-argument dictionary, that component of the model is
bookkeeping only, so observable equality of failures compares kinds. -/
inductive PyErrKind where
  | indexError
  | valueError
deriving DecidableEq, Repr

/-- Forget the bookkeeping payload of an error, keeping the exception kind. -/
def PyErr.kind : PyErr → PyErrKind
  | .indexError => .indexError
  | .valueError _ => .valueError

/-- URL building shared by both modules:
`self.domain % self.sub_domain + slash-joined path + dot + format.lower()`. -/
def mkUrl (sub format : String) (path : List String) : String :=
  "https://" ++ sub ++ ".chargify.com/" ++ String.intercalate "/" path ++ "." ++ pyLower format

/-- Tail of `construct_request` in `src/chargify.py` after verb handling:
identifier extraction, `data` pop, URL building.  Result tuple order is
`(method, url, query, body)` as in the source. -/
def construct_rest_v1 (sub format : String) (path : List String) (method : String)
    (kw : Kwargs) : String × String × Kwargs × Option Value :=
  let pr := extractIdentifiersOld IDENTIFIERS_v1 path kw
  (method, mkUrl sub format pr.1, dictRemove "data" pr.2, dictGet "data" pr.2)

/-- `Chargify.construct_request` of `src/chargify.py`. -/
def construct_request_v1 (sub format : String) (path : List String) (kw : Kwargs) :
    Except PyErr (String × String × Kwargs × Option Value) :=
  match path.getLast? with
  | none => .error .indexError
  | some last =>
    match dictGet last VERBS with
    | some m => .ok (construct_rest_v1 sub format path.dropLast m kw)
    | none => .ok (construct_rest_v1 sub format path "GET" kw)

/-- Tail of `construct_request` in `src/chargify/chargify.py` after verb
handling.  Result tuple order is `(url, method, query, body)` as in the
source. -/
def construct_rest_v2 (sub format : String) (path : List String) (method : String)
    (kw : Kwargs) : Except PyErr (String × String × Kwargs × Option Value) :=
  match extractIdentifiersNew IDENTIFIERS_v2 path kw with
  | .error e => .error (.valueError e)
  | .ok pr => .ok (mkUrl sub format pr.1, method, dictRemove "data" pr.2, dictGet "data" pr.2)

/-- `Chargify.construct_request` of `src/chargify/chargify.py`. -/
def construct_request_v2 (sub format : String) (path : List String) (kw : Kwargs) :
    Except PyErr (String × String × Kwargs × Option Value) :=
  match path.getLast? with
  | none => .error .indexError
  | some last =>
    match dictGet last VERBS with
    | some m => construct_rest_v2 sub format path.dropLast m kw
    | none => construct_rest_v2 sub format path "GET" kw

/-- The format validation and defaulting of `Chargify.__init__` (identical in
both modules): when a truthy format is supplied, assert that its lowercase
form is a valid format (an `AssertionError`, modelled by `error`, fails the
construction); the stored format is `format or json`. -/
def initFormat (format : Option String) : Except Unit String :=
  match format with
  | none => .ok "json"
  | some f =>
    if f = "" then .ok "json"
    else if VALID_FORMATS.contains (pyLower f) then .ok f
    else .error ()

/-- The facade state of the `Chargify` class (identical in both modules).
The transport collaborator (`client`) is abstracted as an opaque handle. -/
structure Chargify where
  api_key : String
  sub_domain : String
  path : List String
  client : Nat
  format : String
deriving DecidableEq, Repr

/-- `Chargify.__getattr__` for a name not defined on the facade: a new facade
sharing credential, subdomain, transport and format, with the accessed name
appended to a fresh copy of the path (`self.path + [attr]`).  The
`object.__getattr__` probe in the source always raises `AttributeError`, so
this branch is always the one taken. -/
def Chargify.getattr (c : Chargify) (attr : String) : Chargify :=
  { c with path := c.path ++ [attr] }

/-- A chain of attribute accesses starting from a base facade. -/
def chainAccess (c : Chargify) (names : List String) : Chargify :=
  names.foldl Chargify.getattr c

/-- The relevant observable state of an HTTP response, as consumed by
`make_request`: `ok`, `status_code`, the content-type header, the decoded
JSON body (used only when the content type mentions json), and the
`text`/`content` views of the raw body. -/
structure Response where
  ok : Bool
  status_code : Nat
  content_type : String
  jsonData : Value
  text : String
  content : String
deriving DecidableEq, Repr

/-- A successful response body as returned by `make_request`: the decoded
JSON when the content type mentions json, the raw text otherwise. -/
inductive RespBody where
  | json (v : Value)
  | text (s : String)
deriving DecidableEq, Repr

/-- The exception kinds of `src/chargify.py` (class names shortened by the
common prefix; `base` is `ChargifyError`).  These exceptions carry no
payload. -/
inductive ExcV1 where
  | base
  | connection
  | unauthorized
  | forbidden
  | notFound
  | unprocessableEntity
  | server
deriving DecidableEq, Repr

/-- `ChargifyHttpClient.make_request` of `src/chargify.py`, from the point
the response is available (the socket call itself is outside the model).
On success it returns the pair `(body, status_code)`; on failure it raises
one of the typed exceptions by an if-chain over the status code. -/
def make_request_v1 (r : Response) : Except ExcV1 (RespBody × Nat) :=
  if r.ok then
    if strContains r.content_type "json" then .ok (.json r.jsonData, r.status_code)
    else .ok (.text r.text, r.status_code)
  else if r.status_code = 401 then .error .unauthorized
  else if r.status_code = 403 then .error .forbidden
  else if r.status_code = 404 then .error .notFound
  else if r.status_code = 422 then .error .unprocessableEntity
  else if r.status_code = 500 then .error .server
  else .error .base

/-- The exception kinds of `src/chargify/chargify.py` (`base` is
`ChargifyError`). -/
inductive ExcKindV2 where
  | base
  | connection
  | unauthorized
  | forbidden
  | notFound
  | duplicateSubmission
  | unprocessableEntity
  | server
deriving DecidableEq, Repr

/-- `STATUS_EXCEPTIONS` of `src/chargify/chargify.py`: the status-code to
exception-class mapping. -/
def STATUS_EXCEPTIONS : List (Nat × ExcKindV2) :=
  [(401, .unauthorized),
   (403, .forbidden),
   (404, .notFound),
   (409, .duplicateSubmission),
   (422, .unprocessableEntity),
   (500, .server)]

/-- The error payload attached to a raised exception in
`src/chargify/chargify.py`: the decoded JSON body when the content type
mentions json, otherwise the one-entry dict with key `body` holding the raw
content. -/
inductive ErrorData where
  | json (v : Value)
  | bodyContent (s : String)
deriving DecidableEq, Repr

/-- A raised exception of `src/chargify/chargify.py`: its class (kind), the
`status_code` attribute and the `error_data` attribute. -/
structure ExcV2 where
  kind : ExcKindV2
  status_code : Nat
  error_data : ErrorData
deriving DecidableEq, Repr

/-- `ChargifyHttpClient.make_request` of `src/chargify/chargify.py`, from the
point the response is available.  On a non-ok response the exception class
is looked up in `STATUS_EXCEPTIONS` with `ChargifyError` as the `KeyError`
fallback, and the exception carries the status code and the decoded error
payload. -/
def make_request_v2 (r : Response) : Except ExcV2 RespBody :=
  if r.ok then
    if strContains r.content_type "json" then .ok (.json r.jsonData)
    else .ok (.text r.text)
  else
    .error
      { kind := (dictGet r.status_code STATUS_EXCEPTIONS).getD .base
        status_code := r.status_code
        error_data :=
          if strContains r.content_type "json" then .json r.jsonData
          else .bodyContent r.content }

/-! ### Dictionary lemmas -/

theorem dictGet_dictRemove_self {κ α : Type} [DecidableEq κ] (k : κ) (l : List (κ × α)) :
    dictGet k (dictRemove k l) = none := by
  induction l with
  | nil => rfl
  | cons hd t ih =>
    obtain ⟨k', v⟩ := hd
    by_cases h : k' = k <;> simp [dictRemove, dictGet, h, ih]

theorem dictGet_dictRemove_ne {κ α : Type} [DecidableEq κ] {q k : κ} (h : q ≠ k)
    (l : List (κ × α)) : dictGet q (dictRemove k l) = dictGet q l := by
  induction l with
  | nil => rfl
  | cons hd t ih =>
    obtain ⟨k', v⟩ := hd
    by_cases hk : k' = k
    · subst hk
      have hkq : k' ≠ q := fun hq => h hq.symm
      simp [dictRemove, dictGet, hkq, ih]
    · simp only [dictRemove, if_neg hk, dictGet]
      by_cases hq : k' = q <;> simp [hq, ih]

theorem dictGet_of_dictRemove {κ α : Type} [DecidableEq κ] {q k : κ} {l : List (κ × α)}
    {v : α} (h : dictGet q (dictRemove k l) = some v) : dictGet q l = some v := by
  by_cases hqk : q = k
  · subst hqk; rw [dictGet_dictRemove_self] at h; exact absurd h (by simp)
  · rwa [dictGet_dictRemove_ne hqk] at h

theorem dictRemove_idem {κ α : Type} [DecidableEq κ] (k : κ) (l : List (κ × α)) :
    dictRemove k (dictRemove k l) = dictRemove k l := by
  induction l with
  | nil => rfl
  | cons hd t ih =>
    obtain ⟨k', v⟩ := hd
    by_cases h : k' = k <;> simp [dictRemove, h, ih]

theorem dictRemove_comm {κ α : Type} [DecidableEq κ] (a b : κ) (l : List (κ × α)) :
    dictRemove a (dictRemove b l) = dictRemove b (dictRemove a l) := by
  induction l with
  | nil => rfl
  | cons hd t ih =>
    obtain ⟨k', v⟩ := hd
    by_cases ha : k' = a <;> by_cases hb : k' = b
    · have hab : a = b := ha.symm.trans hb
      subst hab
      rfl
    · have hab : a ≠ b := fun hh => hb (ha.trans hh)
      simp [dictRemove, ha, hb, hab, ih]
    · have hab : b ≠ a := fun hh => ha (hb.trans hh)
      simp [dictRemove, ha, hb, hab, ih]
    · simp [dictRemove, ha, hb, ih]

theorem dictRemove_eq_filter (k : String) (l : Kwargs) :
    dictRemove k l = l.filter (fun p => p.1 != k) := by
  induction l with
  | nil => rfl
  | cons hd t ih =>
    obtain ⟨k', v⟩ := hd
    by_cases h : k' = k <;> simp [dictRemove, List.filter_cons, h, ih, bne_iff_ne]

/-! ### Characterization of the extraction loops -/

theorem extractOld_spec (ids : List (String × String)) (path : List String) (kw : Kwargs) :
    extractIdentifiersOld ids path kw =
      (path ++ pushedValues ids kw, removeKeysFrom ids kw) := by
  induction ids generalizing path kw with
  | nil => simp [extractIdentifiersOld, pushedValues, removeKeysFrom]
  | cons hd rest ih =>
    obtain ⟨k, n⟩ := hd
    cases hg : dictGet k kw with
    | none => simp [extractIdentifiersOld, pushedValues, removeKeysFrom, hg, ih]
    | some v =>
      cases hv : v.truthy <;>
        simp [extractIdentifiersOld, pushedValues, removeKeysFrom, hg, hv, ih]

theorem extractNew_ok_kwargs {ids : List (String × String)} {path p1 : List String}
    {kw kw1 : Kwargs} (h : extractIdentifiersNew ids path kw = .ok (p1, kw1)) :
    kw1 = removeKeysFrom ids kw := by
  induction ids generalizing path kw with
  | nil =>
    rw [extractIdentifiersNew] at h
    rw [removeKeysFrom]
    cases h
    rfl
  | cons hd rest ih =>
    obtain ⟨k, n⟩ := hd
    rw [extractIdentifiersNew] at h
    rw [removeKeysFrom]
    split at h
    · split at h
      · split at h
        · exact ih h
        · simp at h
      · exact ih h
    · exact ih h

theorem dictGet_removeKeysFrom_none {q : String} {kw : Kwargs} (h : dictGet q kw = none)
    (ids : List (String × String)) : dictGet q (removeKeysFrom ids kw) = none := by
  induction ids generalizing kw with
  | nil => exact h
  | cons hd rest ih =>
    obtain ⟨k, n⟩ := hd
    rw [removeKeysFrom]
    refine ih ?_
    by_cases hq : q = k
    · subst hq
      exact dictGet_dictRemove_self ..
    · rw [dictGet_dictRemove_ne hq]
      exact h

theorem dictGet_removeKeysFrom_of_mem : ∀ (ids : List (String × String)) (kw : Kwargs)
    {q : String}, q ∈ ids.map Prod.fst → dictGet q (removeKeysFrom ids kw) = none
  | [], _, _, hmem => by simp at hmem
  | (k, _) :: rest, kw, q, hmem => by
    rw [removeKeysFrom]
    by_cases hq : q = k
    · subst hq
      exact dictGet_removeKeysFrom_none (dictGet_dictRemove_self ..) rest
    · have h2 : q ∈ rest.map Prod.fst := by simpa [hq] using hmem
      exact dictGet_removeKeysFrom_of_mem rest _ h2

theorem dictGet_removeKeysFrom_of_not_mem : ∀ (ids : List (String × String)) (kw : Kwargs)
    {q : String}, q ∉ ids.map Prod.fst → dictGet q (removeKeysFrom ids kw) = dictGet q kw
  | [], _, _, _ => rfl
  | (k, _) :: rest, kw, q, hmem => by
    rw [removeKeysFrom]
    have hqk : q ≠ k := fun h => hmem (by simp [h])
    rw [dictGet_removeKeysFrom_of_not_mem rest _ (fun h => hmem (by simp [h]))]
    exact dictGet_dictRemove_ne hqk _

theorem removeKeysFrom_eq_filter (ids : List (String × String)) (kw : Kwargs) :
    removeKeysFrom ids kw = kw.filter (fun p => !((ids.map Prod.fst).contains p.1)) := by
  induction ids generalizing kw with
  | nil => simp [removeKeysFrom]
  | cons hd rest ih =>
    obtain ⟨k, n⟩ := hd
    rw [removeKeysFrom, ih, dictRemove_eq_filter, List.filter_filter]
    refine List.filter_congr ?_
    intro p _
    simp only [List.map_cons, List.contains_cons, Bool.not_or]
    cases h : p.1 == k <;> simp [bne, h]

theorem query_eq_filter (ids : List (String × String)) (kw : Kwargs) :
    dictRemove "data" (removeKeysFrom ids kw) =
      kw.filter (fun p => !((ids.map Prod.fst).contains p.1) && p.1 != "data") := by
  rw [removeKeysFrom_eq_filter, dictRemove_eq_filter, List.filter_filter]
  exact List.filter_congr (fun p _ => Bool.and_comm ..)

theorem extractNew_append : ∀ (xs ys : List (String × String)) (path : List String)
    (kw : Kwargs),
    extractIdentifiersNew (xs ++ ys) path kw =
      match extractIdentifiersNew xs path kw with
      | .ok pr => extractIdentifiersNew ys pr.1 pr.2
      | .error e => .error e
  | [], ys, path, kw => by rw [List.nil_append, extractIdentifiersNew]
  | (k, n) :: rest, ys, path, kw => by
    rw [List.cons_append, extractIdentifiersNew, extractIdentifiersNew]
    cases hg : dictGet k kw with
    | none => exact extractNew_append rest ys path _
    | some v =>
      dsimp only
      cases hv : v.truthy with
      | false => exact extractNew_append rest ys path _
      | true =>
        cases hi : pyIndex n path with
        | none => rfl
        | some idx => exact extractNew_append rest ys _ _

theorem extractNew_falsy : ∀ (ids : List (String × String)) (path : List String)
    (kw : Kwargs),
    (∀ pr ∈ ids, ∀ v, dictGet pr.1 kw = some v → v.truthy = false) →
    extractIdentifiersNew ids path kw = .ok (path, removeKeysFrom ids kw)
  | [], path, kw, _ => by rw [extractIdentifiersNew, removeKeysFrom]
  | (k, n) :: rest, path, kw, hfal => by
    rw [extractIdentifiersNew, removeKeysFrom]
    cases hg : dictGet k kw with
    | none =>
      exact extractNew_falsy rest path _
        (fun pr hpr v hv => hfal pr (List.mem_cons_of_mem _ hpr) v (dictGet_of_dictRemove hv))
    | some v =>
      dsimp only
      have hv : ¬(v.truthy = true) := by
        simp [hfal (k, n) (List.mem_cons_self ..) v hg]
      rw [if_neg hv]
      exact extractNew_falsy rest path _
        (fun pr hpr v hv => hfal pr (List.mem_cons_of_mem _ hpr) v (dictGet_of_dictRemove hv))

theorem pushedValues_falsy : ∀ (ids : List (String × String)) (kw : Kwargs),
    (∀ pr ∈ ids, ∀ v, dictGet pr.1 kw = some v → v.truthy = false) →
    pushedValues ids kw = []
  | [], _, _ => rfl
  | (k, n) :: rest, kw, hfal => by
    rw [pushedValues]
    cases hg : dictGet k kw with
    | none =>
      exact pushedValues_falsy rest _
        (fun pr hpr v hv => hfal pr (List.mem_cons_of_mem _ hpr) v (dictGet_of_dictRemove hv))
    | some v =>
      dsimp only
      have hv : ¬(v.truthy = true) := by
        simp [hfal (k, n) (List.mem_cons_self ..) v hg]
      rw [if_neg hv]
      exact pushedValues_falsy rest _
        (fun pr hpr v hv => hfal pr (List.mem_cons_of_mem _ hpr) v (dictGet_of_dictRemove hv))

theorem pushedValues_one_truthy (ids : List (String × String)) :
    ∀ (kw : Kwargs) (k n : String) (v : Value),
    (ids.map Prod.fst).Nodup → (k, n) ∈ ids → dictGet k kw = some v → v.truthy = true →
    (∀ pr ∈ ids, pr.1 ≠ k → ∀ v', dictGet pr.1 kw = some v' → v'.truthy = false) →
    pushedValues ids kw = [v.str] := by
  induction ids with
  | nil => intro _ _ _ _ _ hmem _ _ _; simp at hmem
  | cons hd rest ih =>
    obtain ⟨k0, n0⟩ := hd
    intro kw k n v hnd hmem hget htr hoth
    rw [pushedValues]
    have hk0nd : k0 ∉ rest.map Prod.fst := (List.nodup_cons.mp (by simpa using hnd)).1
    have hnd' : (rest.map Prod.fst).Nodup := (List.nodup_cons.mp (by simpa using hnd)).2
    by_cases hk : k0 = k
    · rw [hk, hget]
      dsimp only
      rw [if_pos htr]
      have hfal : ∀ pr ∈ rest, ∀ v', dictGet pr.1 (dictRemove k0 kw) = some v' →
          v'.truthy = false := by
        intro pr hpr v' hv'
        have hne : pr.1 ≠ k := by
          intro he
          exact hk0nd (by rw [hk, ← he]; exact List.mem_map_of_mem Prod.fst hpr)
        exact hoth pr (List.mem_cons_of_mem _ hpr) hne v' (dictGet_of_dictRemove hv')
      rw [hk] at hfal
      rw [pushedValues_falsy rest _ hfal]
    · have hmem' : (k, n) ∈ rest := by
        rcases List.mem_cons.mp hmem with h' | h'
        · injection h' with h1 h2; exact absurd h1.symm hk
        · exact h'
      have hget' : dictGet k (dictRemove k0 kw) = some v := by
        rw [dictGet_dictRemove_ne (fun he => hk he.symm)]; exact hget
      have hoth' : ∀ pr ∈ rest, pr.1 ≠ k → ∀ v', dictGet pr.1 (dictRemove k0 kw) = some v' →
          v'.truthy = false :=
        fun pr hpr hne v' hv' =>
          hoth pr (List.mem_cons_of_mem _ hpr) hne v' (dictGet_of_dictRemove hv')
      cases hg : dictGet k0 kw with
      | none => exact ih _ k n v hnd' hmem' hget' htr hoth'
      | some v0 =>
        dsimp only
        have hv0 : v0.truthy = false := hoth (k0, n0) (List.mem_cons_self ..) hk v0 hg
        rw [hv0]
        exact ih _ k n v hnd' hmem' hget' htr hoth'

theorem extractNew_one_truthy (ids : List (String × String)) :
    ∀ (path : List String) (kw : Kwargs) (k n : String) (v : Value) (j : Nat),
    (ids.map Prod.fst).Nodup → (k, n) ∈ ids → dictGet k kw = some v → v.truthy = true →
    (∀ pr ∈ ids, pr.1 ≠ k → ∀ v', dictGet pr.1 kw = some v' → v'.truthy = false) →
    pyIndex n path = some j →
    extractIdentifiersNew ids path kw =
      .ok (pyInsert (j + 1) v.str path, removeKeysFrom ids kw) := by
  induction ids with
  | nil => intro _ _ _ _ _ _ _ hmem _ _ _ _; simp at hmem
  | cons hd rest ih =>
    obtain ⟨k0, n0⟩ := hd
    intro path kw k n v j hnd hmem hget htr hoth hidx
    rw [extractIdentifiersNew, removeKeysFrom]
    have hk0nd : k0 ∉ rest.map Prod.fst := (List.nodup_cons.mp (by simpa using hnd)).1
    have hnd' : (rest.map Prod.fst).Nodup := (List.nodup_cons.mp (by simpa using hnd)).2
    by_cases hk : k0 = k
    · have hn : n0 = n := by
        rcases List.mem_cons.mp hmem with h' | h'
        · injection h' with h1 h2; exact h2.symm
        · exact absurd (by rw [hk]; exact List.mem_map_of_mem Prod.fst h') hk0nd
      rw [hk, hget]
      dsimp only
      rw [if_pos htr, hn, hidx]
      dsimp only
      have hfal : ∀ pr ∈ rest, ∀ v', dictGet pr.1 (dictRemove k0 kw) = some v' →
          v'.truthy = false := by
        intro pr hpr v' hv'
        have hne : pr.1 ≠ k := by
          intro he
          exact hk0nd (by rw [hk, ← he]; exact List.mem_map_of_mem Prod.fst hpr)
        exact hoth pr (List.mem_cons_of_mem _ hpr) hne v' (dictGet_of_dictRemove hv')
      rw [hk] at hfal
      rw [extractNew_falsy rest _ _ hfal]
    · have hmem' : (k, n) ∈ rest := by
        rcases List.mem_cons.mp hmem with h' | h'
        · injection h' with h1 h2; exact absurd h1.symm hk
        · exact h'
      have hget' : dictGet k (dictRemove k0 kw) = some v := by
        rw [dictGet_dictRemove_ne (fun he => hk he.symm)]; exact hget
      have hoth' : ∀ pr ∈ rest, pr.1 ≠ k → ∀ v', dictGet pr.1 (dictRemove k0 kw) = some v' →
          v'.truthy = false :=
        fun pr hpr hne v' hv' =>
          hoth pr (List.mem_cons_of_mem _ hpr) hne v' (dictGet_of_dictRemove hv')
      cases hg : dictGet k0 kw with
      | none => exact ih path _ k n v j hnd' hmem' hget' htr hoth' hidx
      | some v0 =>
        dsimp only
        have hv0 : v0.truthy = false := hoth (k0, n0) (List.mem_cons_self ..) hk v0 hg
        rw [hv0]
        exact ih path _ k n v j hnd' hmem' hget' htr hoth' hidx

theorem pushedValues_mem (ids : List (String × String)) :
    ∀ (kw : Kwargs) (k n : String) (v : Value),
    (ids.map Prod.fst).Nodup → (k, n) ∈ ids → dictGet k kw = some v → v.truthy = true →
    v.str ∈ pushedValues ids kw := by
  induction ids with
  | nil => intro _ _ _ _ _ hmem _ _; simp at hmem
  | cons hd rest ih =>
    obtain ⟨k0, n0⟩ := hd
    intro kw k n v hnd hmem hget htr
    rw [pushedValues]
    have hnd' : (rest.map Prod.fst).Nodup := (List.nodup_cons.mp (by simpa using hnd)).2
    by_cases hk : k0 = k
    · rw [hk, hget]
      dsimp only
      rw [if_pos htr]
      exact List.mem_cons_self ..
    · have hmem' : (k, n) ∈ rest := by
        rcases List.mem_cons.mp hmem with h' | h'
        · injection h' with h1 h2; exact absurd h1.symm hk
        · exact h'
      have hget' : dictGet k (dictRemove k0 kw) = some v := by
        rw [dictGet_dictRemove_ne (fun he => hk he.symm)]; exact hget
      cases hg : dictGet k0 kw with
      | none => exact ih _ k n v hnd' hmem' hget' htr
      | some v0 =>
        dsimp only
        cases hv0 : v0.truthy with
        | true => exact List.mem_cons_of_mem _ (ih _ k n v hnd' hmem' hget' htr)
        | false => exact ih _ k n v hnd' hmem' hget' htr

/-! ### Adjacency lemmas for the insert-after-segment variant -/

theorem adjacentB_cons {a b x : String} : ∀ {l : List String},
    adjacentB a b l = true → adjacentB a b (x :: l) = true
  | [], h => by simp [adjacentB] at h
  | c :: t, h => by
    rw [adjacentB]
    rw [h]
    simp

theorem adjacentB_pyInsert_self : ∀ (l : List String) (n x : String) (idx : Nat),
    pyIndex n l = some idx → adjacentB n x (pyInsert (idx + 1) x l) = true
  | [], n, x, idx, h => by simp [pyIndex] at h
  | a :: t, n, x, idx, h => by
    rw [pyIndex] at h
    by_cases ha : a = n
    · rw [if_pos ha] at h
      have h0 : idx = 0 := by simpa using h.symm
      subst h0
      show adjacentB n x (a :: x :: t) = true
      rw [adjacentB]
      simp [ha]
    · rw [if_neg ha] at h
      cases ht : pyIndex n t with
      | none => rw [ht] at h; simp at h
      | some jj =>
        rw [ht] at h
        simp at h
        subst h
        show adjacentB n x (a :: pyInsert (jj + 1) x t) = true
        exact adjacentB_cons (adjacentB_pyInsert_self t n x jj ht)

theorem adjacentB_pyInsert_of_ne : ∀ (l : List String) (a b n' x : String) (idx : Nat),
    adjacentB a b l = true → pyIndex n' l = some idx → n' ≠ a →
    adjacentB a b (pyInsert (idx + 1) x l) = true
  | [], _, _, _, _, _, h, _, _ => by simp [adjacentB] at h
  | [c], _, _, _, _, _, h, _, _ => by simp [adjacentB] at h
  | c :: d :: t, a, b, n', x, idx, h, hidx, hne => by
    rw [adjacentB] at h
    rw [pyIndex] at hidx
    by_cases hc : c = n'
    · rw [if_pos hc] at hidx
      have h0 : idx = 0 := by simpa using hidx.symm
      subst h0
      rcases (by simpa using h :
          (c = a ∧ d = b) ∨ adjacentB a b (d :: t) = true) with ⟨hca, hdb⟩ | hrec
      · exact absurd (hc.symm.trans hca) hne
      · show adjacentB a b (c :: x :: d :: t) = true
        rw [adjacentB]
        rw [adjacentB_cons hrec]
        simp
    · rw [if_neg hc] at hidx
      cases ht : pyIndex n' (d :: t) with
      | none => rw [ht] at hidx; simp at hidx
      | some jj =>
        rw [ht] at hidx
        simp at hidx
        subst hidx
        rcases (by simpa using h :
            (c = a ∧ d = b) ∨ adjacentB a b (d :: t) = true) with ⟨hca, hdb⟩ | hrec
        · show adjacentB a b (c :: d :: pyInsert jj x t) = true
          rw [adjacentB]
          simp [hca, hdb]
        · show adjacentB a b (c :: pyInsert (jj + 1) x (d :: t)) = true
          exact adjacentB_cons (adjacentB_pyInsert_of_ne (d :: t) a b n' x jj hrec ht hne)

theorem adjacentB_extractNew (ids : List (String × String)) :
    ∀ (path p1 : List String) (kw kw1 : Kwargs) (a b : String),
    a ∉ ids.map Prod.snd →
    adjacentB a b path = true →
    extractIdentifiersNew ids path kw = .ok (p1, kw1) →
    adjacentB a b p1 = true := by
  induction ids with
  | nil =>
    intro path p1 kw kw1 a b _ hadj h
    rw [extractIdentifiersNew] at h
    cases h
    exact hadj
  | cons hd rest ih =>
    obtain ⟨k0, n0⟩ := hd
    intro path p1 kw kw1 a b hna hadj h
    rw [extractIdentifiersNew] at h
    have hna' : a ∉ rest.map Prod.snd := fun hm => hna (by simp [hm])
    split at h
    · rename_i v heq
      split at h
      · rename_i htr
        split at h
        · rename_i idx hidx
          have hn0a : n0 ≠ a := fun he => hna (by simp [he])
          exact ih _ p1 _ kw1 a b hna'
            (adjacentB_pyInsert_of_ne path a b n0 v.str idx hadj hidx hn0a) h
        · simp at h
      · exact ih path p1 _ kw1 a b hna' hadj h
    · exact ih path p1 _ kw1 a b hna' hadj h

theorem extractNew_adjacent (ids : List (String × String)) :
    ∀ (path p1 : List String) (kw kw1 : Kwargs) (k n : String) (v : Value),
    (ids.map Prod.fst).Nodup → (ids.map Prod.snd).Nodup →
    (k, n) ∈ ids → dictGet k kw = some v → v.truthy = true →
    extractIdentifiersNew ids path kw = .ok (p1, kw1) →
    adjacentB n v.str p1 = true := by
  induction ids with
  | nil => intro _ _ _ _ _ _ _ _ _ hmem _ _; simp at hmem
  | cons hd rest ih =>
    obtain ⟨k0, n0⟩ := hd
    intro path p1 kw kw1 k n v hndk hndn hmem hget htr h
    rw [extractIdentifiersNew] at h
    have hk0nd : k0 ∉ rest.map Prod.fst := (List.nodup_cons.mp (by simpa using hndk)).1
    have hndk' : (rest.map Prod.fst).Nodup := (List.nodup_cons.mp (by simpa using hndk)).2
    have hndn' : (rest.map Prod.snd).Nodup := (List.nodup_cons.mp (by simpa using hndn)).2
    by_cases hk : k0 = k
    · have hn : n0 = n := by
        rcases List.mem_cons.mp hmem with h' | h'
        · injection h' with h1 h2; exact h2.symm
        · exact absurd (by rw [hk]; exact List.mem_map_of_mem Prod.fst h') hk0nd
      rw [hk] at h
      split at h
      · rename_i v' heq
        have hv' : v' = v := by
          rw [heq] at hget
          exact Option.some.inj hget
        rw [← hv']
        split at h
        · rename_i htr'
          split at h
          · rename_i idx hidx
            rw [hn] at hidx
            have hstart : adjacentB n v'.str (pyInsert (idx + 1) v'.str path) = true :=
              adjacentB_pyInsert_self path n v'.str idx hidx
            have hna : n ∉ rest.map Prod.snd := by
              rw [← hn]
              exact (List.nodup_cons.mp (by simpa using hndn)).1
            exact adjacentB_extractNew rest _ p1 _ kw1 n v'.str hna hstart h
          · simp at h
        · rename_i htr'
          exact absurd (show v'.truthy = true by rw [hv']; exact htr) htr'
      · rename_i heq
        rw [heq] at hget
        exact absurd hget (by simp)
    · have hmem' : (k, n) ∈ rest := by
        rcases List.mem_cons.mp hmem with h' | h'
        · injection h' with h1 h2; exact absurd h1.symm hk
        · exact h'
      have hget' : dictGet k (dictRemove k0 kw) = some v := by
        rw [dictGet_dictRemove_ne (fun he => hk he.symm)]; exact hget
      split at h
      · split at h
        · split at h
          · exact ih _ p1 _ kw1 k n v hndk' hndn' hmem' hget' htr h
          · simp at h
        · exact ih path p1 _ kw1 k n v hndk' hndn' hmem' hget' htr h
      · exact ih path p1 _ kw1 k n v hndk' hndn' hmem' hget' htr h

/-! ### A falsy identifier keyword behaves as if it were absent -/

theorem extractOld_falsy_remove (ids : List (String × String)) :
    ∀ (path : List String) (kw : Kwargs) (k : String) (v : Value),
    k ∈ ids.map Prod.fst → dictGet k kw = some v → v.truthy = false →
    extractIdentifiersOld ids path kw = extractIdentifiersOld ids path (dictRemove k kw) := by
  induction ids with
  | nil => intro _ _ _ _ hmem _ _; simp at hmem
  | cons hd rest ih =>
    obtain ⟨k0, n0⟩ := hd
    intro path kw k v hmem hget hfal
    by_cases hk : k0 = k
    · subst hk
      rw [extractIdentifiersOld, extractIdentifiersOld, hget, dictGet_dictRemove_self]
      dsimp only
      rw [if_neg (show ¬(v.truthy = true) by simp [hfal]), dictRemove_idem]
    · rw [extractIdentifiersOld, extractIdentifiersOld, dictGet_dictRemove_ne hk]
      have hmem' : k ∈ rest.map Prod.fst := by
        rcases (by simpa using hmem : k = k0 ∨ k ∈ rest.map Prod.fst) with h' | h'
        · exact absurd h'.symm hk
        · exact h'
      have hget' : dictGet k (dictRemove k0 kw) = some v := by
        rw [dictGet_dictRemove_ne (fun he => hk he.symm)]; exact hget
      cases hg : dictGet k0 kw with
      | none =>
        dsimp only
        rw [dictRemove_comm]
        exact ih path _ k v hmem' hget' hfal
      | some v0 =>
        dsimp only
        cases hv0 : v0.truthy with
        | true =>
          rw [dictRemove_comm]
          exact ih _ _ k v hmem' hget' hfal
        | false =>
          rw [dictRemove_comm]
          exact ih path _ k v hmem' hget' hfal

theorem extractNew_falsy_remove (ids : List (String × String)) :
    ∀ (path : List String) (kw : Kwargs) (k : String) (v : Value),
    k ∈ ids.map Prod.fst → dictGet k kw = some v → v.truthy = false →
    (extractIdentifiersNew ids path kw).mapError (fun _ => ()) =
      (extractIdentifiersNew ids path (dictRemove k kw)).mapError (fun _ => ()) := by
  induction ids with
  | nil => intro _ _ _ _ hmem _ _; simp at hmem
  | cons hd rest ih =>
    obtain ⟨k0, n0⟩ := hd
    intro path kw k v hmem hget hfal
    by_cases hk : k0 = k
    · subst hk
      rw [extractIdentifiersNew, extractIdentifiersNew, hget, dictGet_dictRemove_self]
      dsimp only
      rw [if_neg (show ¬(v.truthy = true) by simp [hfal]), dictRemove_idem]
    · rw [extractIdentifiersNew, extractIdentifiersNew, dictGet_dictRemove_ne hk]
      have hmem' : k ∈ rest.map Prod.fst := by
        rcases (by simpa using hmem : k = k0 ∨ k ∈ rest.map Prod.fst) with h' | h'
        · exact absurd h'.symm hk
        · exact h'
      have hget' : dictGet k (dictRemove k0 kw) = some v := by
        rw [dictGet_dictRemove_ne (fun he => hk he.symm)]; exact hget
      cases hg : dictGet k0 kw with
      | none =>
        dsimp only
        rw [dictRemove_comm]
        exact ih path _ k v hmem' hget' hfal
      | some v0 =>
        dsimp only
        cases hv0 : v0.truthy with
        | false =>
          rw [dictRemove_comm]
          exact ih path _ k v hmem' hget' hfal
        | true =>
          cases hi : pyIndex n0 path with
          | none => rfl
          | some idx =>
            dsimp only
            rw [dictRemove_comm]
            exact ih _ _ k v hmem' hget' hfal

/-! ### Small utilities -/

theorem pyInsert_length : ∀ (l : List String) (x : String),
    pyInsert l.length x l = l ++ [x]
  | [], _ => rfl
  | a :: t, x => by
    show a :: pyInsert t.length x t = a :: (t ++ [x])
    rw [pyInsert_length t x]

theorem getLast?_some_of_ne_nil : ∀ (l : List String), l ≠ [] → ∃ a, l.getLast? = some a
  | [], h => absurd rfl h
  | [a], _ => ⟨a, rfl⟩
  | a :: b :: t, _ => by
    rw [List.getLast?_cons_cons]
    exact getLast?_some_of_ne_nil (b :: t) (by simp)

theorem chainAccess_spec : ∀ (names : List String) (c : Chargify),
    chainAccess c names = { c with path := c.path ++ names }
  | [], c => by simp [chainAccess]
  | a :: t, c => by
    show chainAccess (c.getattr a) t = _
    rw [chainAccess_spec t (c.getattr a)]
    simp [Chargify.getattr]

/-- Claim C6: attribute access on the facade returns a new facade whose path
is the original path with the accessed name appended, with credential,
subdomain, transport and format unchanged; iterating this for arbitrary
chains gives the same formula at any depth, so two chains built from one
base facade never contaminate each other (the base facade, a pure value
here as `self.path + [attr]` copies in the source, is left untouched). -/
theorem c6_chaining : ∀ (c : Chargify) (a : String) (names : List String),
    (c.getattr a).path = c.path ++ [a]
    ∧ (c.getattr a).api_key = c.api_key
    ∧ (c.getattr a).sub_domain = c.sub_domain
    ∧ (c.getattr a).client = c.client
    ∧ (c.getattr a).format = c.format
    ∧ (chainAccess c names).path = c.path ++ names
    ∧ (chainAccess c names).api_key = c.api_key
    ∧ (chainAccess c names).sub_domain = c.sub_domain
    ∧ (chainAccess c names).client = c.client
    ∧ (chainAccess c names).format = c.format := by
  intro c a names
  rw [chainAccess_spec]
  simp [Chargify.getattr]

/-- Claim C7 counterexample: the empty string is a non-None supplied format
whose lowercase form is not a valid format, yet construction succeeds
(Python `if format:` skips the assert for a falsy string and the format
defaults to json). -/
theorem c7_counterexample :
    initFormat (some "") = .ok "json" ∧ VALID_FORMATS.contains (pyLower "") = false :=
  ⟨rfl, rfl⟩

/-- Claim C7 amended: for every non-None, non-empty format, construction
succeeds exactly when the lowercased format is a valid one; a supplied
empty-string format is treated as absent and the format defaults to json,
as does an absent format. -/
theorem c7_amended : ∀ f : String, f ≠ "" →
    (VALID_FORMATS.contains (pyLower f) = true → initFormat (some f) = .ok f)
    ∧ (VALID_FORMATS.contains (pyLower f) = false → initFormat (some f) = .error ())
    ∧ initFormat (some "") = .ok "json" ∧ initFormat none = .ok "json" := by
  intro f hne
  refine ⟨?_, ?_, rfl, rfl⟩
  · intro hc
    have hm : pyLower f ∈ VALID_FORMATS := by simpa using hc
    simp [initFormat, hne, hm]
  · intro hc
    have hm : pyLower f ∉ VALID_FORMATS := by simpa using hc
    simp [initFormat, hne, hm]

/-- Claim C7 amended, witness at the format csv from the spec example. -/
theorem c7_amended_witness :
    ("csv" : String) ≠ "" ∧ initFormat (some "csv") = .error () := by
  refine ⟨by decide, ?_⟩
  exact (c7_amended "csv" (by decide)).2.1 (by decide)

/-- Claim C9: on an empty accumulated path both implementations of
`construct_request` fail with the `IndexError` from the `path[-1]`
inspection; on a non-empty path that inspection never fails: the legacy
implementation always returns a result, and the package implementation
never raises the index error (its only remaining failure is the
`ValueError` of the identifier insertion). -/
theorem c9_empty_path : ∀ (sub format : String) (kw : Kwargs),
    construct_request_v1 sub format [] kw = .error .indexError
    ∧ construct_request_v2 sub format [] kw = .error .indexError
    ∧ ∀ p : List String, p ≠ [] →
        (∃ r, construct_request_v1 sub format p kw = .ok r)
        ∧ construct_request_v2 sub format p kw ≠ .error .indexError := by
  intro sub format kw
  refine ⟨rfl, rfl, ?_⟩
  intro p hp
  obtain ⟨l, hl⟩ := getLast?_some_of_ne_nil p hp
  constructor
  · unfold construct_request_v1
    rw [hl]
    dsimp only
    cases dictGet l VERBS <;> exact ⟨_, rfl⟩
  · unfold construct_request_v2
    rw [hl]
    dsimp only
    cases dictGet l VERBS with
    | some m =>
      dsimp only
      unfold construct_rest_v2
      cases extractIdentifiersNew IDENTIFIERS_v2 p.dropLast kw with
      | error e => simp
      | ok pr => simp
    | none =>
      dsimp only
      unfold construct_rest_v2
      cases extractIdentifiersNew IDENTIFIERS_v2 p kw with
      | error e => simp
      | ok pr => simp

/-- Claim C9, witness on the non-empty path customers. -/
theorem c9_empty_path_witness :
    (["customers"] : List String) ≠ []
    ∧ (∃ r, construct_request_v1 "sub" "json" ["customers"] [] = .ok r)
    ∧ construct_request_v2 "sub" "json" ["customers"] [] ≠ .error .indexError := by
  have h := (c9_empty_path "sub" "json" []).2.2 ["customers"] (by decide)
  exact ⟨by decide, h.1, h.2⟩

/-- Claim C2: with a non-empty path, both implementations look the final
segment up in `VERBS` (create to POST, read to GET, update to PUT, delete
to DELETE); on a hit the segment is popped, so the rest of the request is
built from `path.dropLast` with the mapped method, and on a miss the method
is GET and the path is kept whole. -/
theorem c2_verb_inference : ∀ (sub format l : String) (p : List String) (kw : Kwargs),
    p.getLast? = some l →
    (dictGet "create" VERBS = some "POST" ∧ dictGet "read" VERBS = some "GET"
      ∧ dictGet "update" VERBS = some "PUT" ∧ dictGet "delete" VERBS = some "DELETE")
    ∧ (∀ m, dictGet l VERBS = some m →
        construct_request_v1 sub format p kw = .ok (construct_rest_v1 sub format p.dropLast m kw)
        ∧ construct_request_v2 sub format p kw = construct_rest_v2 sub format p.dropLast m kw)
    ∧ (l ∉ ["create", "read", "update", "delete"] →
        dictGet l VERBS = none
        ∧ construct_request_v1 sub format p kw = .ok (construct_rest_v1 sub format p "GET" kw)
        ∧ construct_request_v2 sub format p kw = construct_rest_v2 sub format p "GET" kw) := by
  intro sub format l p kw hl
  refine ⟨⟨rfl, rfl, rfl, rfl⟩, ?_, ?_⟩
  · intro m hm
    constructor
    · unfold construct_request_v1
      rw [hl]
      dsimp only
      rw [hm]
    · unfold construct_request_v2
      rw [hl]
      dsimp only
      rw [hm]
  · intro hnot
    simp only [List.mem_cons, List.not_mem_nil, or_false, not_or] at hnot
    obtain ⟨h1, h2, h3, h4⟩ := hnot
    have hnone : dictGet l VERBS = none := by
      simp [dictGet, VERBS, Ne.symm h1, Ne.symm h2, Ne.symm h3, Ne.symm h4]
    refine ⟨hnone, ?_, ?_⟩
    · unfold construct_request_v1
      rw [hl]
      dsimp only
      rw [hnone]
    · unfold construct_request_v2
      rw [hl]
      dsimp only
      rw [hnone]

/-- Claim C2, witness on the chain customers,create. -/
theorem c2_verb_inference_witness :
    construct_request_v1 "sub" "json" ["customers", "create"] [] =
      .ok (construct_rest_v1 "sub" "json" ["customers"] "POST" [])
    ∧ construct_request_v2 "sub" "json" ["customers", "read"] [] =
      construct_rest_v2 "sub" "json" ["customers"] "GET" [] := by
  constructor
  · exact ((c2_verb_inference "sub" "json" "create" ["customers", "create"] [] rfl).2.1
      "POST" rfl).1
  · exact ((c2_verb_inference "sub" "json" "read" ["customers", "read"] [] rfl).2.1
      "GET" rfl).2

/-! ### Shape of construct_request on a non-empty path -/

theorem construct_eq_rest_v1 (sub format l : String) (p : List String) (kw : Kwargs)
    (hl : p.getLast? = some l) :
    construct_request_v1 sub format p kw =
      .ok (construct_rest_v1 sub format
        (if (dictGet l VERBS).isSome then p.dropLast else p)
        ((dictGet l VERBS).getD "GET") kw) := by
  unfold construct_request_v1
  rw [hl]
  dsimp only
  cases dictGet l VERBS <;> rfl

theorem construct_eq_rest_v2 (sub format l : String) (p : List String) (kw : Kwargs)
    (hl : p.getLast? = some l) :
    construct_request_v2 sub format p kw =
      construct_rest_v2 sub format
        (if (dictGet l VERBS).isSome then p.dropLast else p)
        ((dictGet l VERBS).getD "GET") kw := by
  unfold construct_request_v2
  rw [hl]
  dsimp only
  cases dictGet l VERBS <;> rfl

theorem construct_v1_ok_components (sub format : String) (p : List String) (kw : Kwargs)
    {m u q b : _} (h : construct_request_v1 sub format p kw = .ok (m, u, q, b)) :
    q = dictRemove "data" (removeKeysFrom IDENTIFIERS_v1 kw)
    ∧ b = dictGet "data" (removeKeysFrom IDENTIFIERS_v1 kw) := by
  unfold construct_request_v1 at h
  split at h
  · simp at h
  · split at h <;>
    · rename_i hm
      rw [Except.ok.injEq] at h
      unfold construct_rest_v1 at h
      rw [extractOld_spec] at h
      dsimp only at h
      rw [Prod.mk.injEq, Prod.mk.injEq, Prod.mk.injEq] at h
      exact ⟨h.2.2.1.symm, h.2.2.2.symm⟩

theorem construct_v2_ok_components (sub format : String) (p : List String) (kw : Kwargs)
    {u m q b : _} (h : construct_request_v2 sub format p kw = .ok (u, m, q, b)) :
    q = dictRemove "data" (removeKeysFrom IDENTIFIERS_v2 kw)
    ∧ b = dictGet "data" (removeKeysFrom IDENTIFIERS_v2 kw) := by
  unfold construct_request_v2 at h
  split at h
  · simp at h
  · split at h <;>
    · rename_i hm
      unfold construct_rest_v2 at h
      split at h
      · simp at h
      · rename_i pr hpr
        obtain ⟨p1, kw1⟩ := pr
        have hkw : kw1 = removeKeysFrom IDENTIFIERS_v2 kw := extractNew_ok_kwargs hpr
        rw [Except.ok.injEq] at h
        rw [Prod.mk.injEq, Prod.mk.injEq, Prod.mk.injEq] at h
        exact ⟨h.2.2.1.symm.trans (by rw [hkw]), h.2.2.2.symm.trans (by rw [hkw])⟩

/-- Claim C3: in both implementations, on any successful construction the
body is exactly the value of the `data` keyword when supplied and the
default empty mapping (`none`) otherwise, and the query mapping is exactly
the original keyword-argument list restricted to the keys that are neither
recognized identifiers of that implementation nor `data`, each entry kept
unchanged and in order. -/
theorem c3_data_and_query : ∀ (sub format : String) (p : List String) (kw : Kwargs),
    (∀ m u q b, construct_request_v1 sub format p kw = .ok (m, u, q, b) →
      b = dictGet "data" kw
      ∧ q = kw.filter
          (fun pr => !((IDENTIFIERS_v1.map Prod.fst).contains pr.1) && pr.1 != "data"))
    ∧ (∀ u m q b, construct_request_v2 sub format p kw = .ok (u, m, q, b) →
      b = dictGet "data" kw
      ∧ q = kw.filter
          (fun pr => !((IDENTIFIERS_v2.map Prod.fst).contains pr.1) && pr.1 != "data")) := by
  intro sub format p kw
  constructor
  · intro m u q b h
    obtain ⟨hq, hb⟩ := construct_v1_ok_components sub format p kw h
    constructor
    · rw [hb, dictGet_removeKeysFrom_of_not_mem IDENTIFIERS_v1 kw (by decide)]
    · rw [hq, query_eq_filter]
  · intro u m q b h
    obtain ⟨hq, hb⟩ := construct_v2_ok_components sub format p kw h
    constructor
    · rw [hb, dictGet_removeKeysFrom_of_not_mem IDENTIFIERS_v2 kw (by decide)]
    · rw [hq, query_eq_filter]

/-- Claim C3, witness: a data payload, a plain query keyword and an
identifier keyword together. -/
theorem c3_data_and_query_witness :
    (some (Value.vStr "d") : Option Value) =
      dictGet "data"
        [("customer_id", Value.vInt 5), ("page", Value.vInt 2), ("data", Value.vStr "d")]
    ∧ ([("page", Value.vInt 2)] : Kwargs) =
      ([("customer_id", Value.vInt 5), ("page", Value.vInt 2), ("data", Value.vStr "d")] :
          Kwargs).filter
        (fun pr => !((IDENTIFIERS_v1.map Prod.fst).contains pr.1) && pr.1 != "data") := by
  exact (c3_data_and_query "sub" "json" ["customers"]
      [("customer_id", Value.vInt 5), ("page", Value.vInt 2), ("data", Value.vStr "d")]).1
    "GET" "https://sub.chargify.com/customers/5.json" [("page", Value.vInt 2)]
    (some (Value.vStr "d")) (by rfl)

/-- Claim C5 counterexample: a 409 response handed to the legacy transport
(`src/chargify.py`) raises the generic base error `ChargifyError`, which is
not the DuplicateSubmission kind the claimed mapping requires and carries
neither the status code nor the decoded payload (its exception type,
`ExcV1`, has no such fields); the package transport on the same response
does raise the mapped, payload-carrying error. -/
theorem c5_counterexample :
    make_request_v1 ⟨false, 409, "application/json", Value.vStr "dup", "", ""⟩ =
      .error .base
    ∧ make_request_v2 ⟨false, 409, "application/json", Value.vStr "dup", "", ""⟩ =
      .error ⟨.duplicateSubmission, 409, .json (Value.vStr "dup")⟩ := by
  constructor <;> rfl

/-- Claim C5 amended: the package transport raises, for every non-success
response, the error class given by `STATUS_EXCEPTIONS` (401 Unauthorized,
403 Forbidden, 404 NotFound, 409 DuplicateSubmission, 422
UnprocessableEntity, 500 ServerError, generic base otherwise), carrying the
status code and the decoded payload; the legacy transport uses the reduced
mapping without 409 and raises payload-free errors. -/
theorem c5_amended : ∀ r : Response, r.ok = false →
    make_request_v2 r = .error
      { kind := (dictGet r.status_code STATUS_EXCEPTIONS).getD .base
        status_code := r.status_code
        error_data := if strContains r.content_type "json" then .json r.jsonData
          else .bodyContent r.content }
    ∧ dictGet 401 STATUS_EXCEPTIONS = some .unauthorized
    ∧ dictGet 403 STATUS_EXCEPTIONS = some .forbidden
    ∧ dictGet 404 STATUS_EXCEPTIONS = some .notFound
    ∧ dictGet 409 STATUS_EXCEPTIONS = some .duplicateSubmission
    ∧ dictGet 422 STATUS_EXCEPTIONS = some .unprocessableEntity
    ∧ dictGet 500 STATUS_EXCEPTIONS = some .server
    ∧ (∀ s : Nat, s ∉ ([401, 403, 404, 409, 422, 500] : List Nat) →
        dictGet s STATUS_EXCEPTIONS = none)
    ∧ make_request_v1 r = .error
        (if r.status_code = 401 then .unauthorized
         else if r.status_code = 403 then .forbidden
         else if r.status_code = 404 then .notFound
         else if r.status_code = 422 then .unprocessableEntity
         else if r.status_code = 500 then .server
         else .base) := by
  intro r hok
  refine ⟨?_, rfl, rfl, rfl, rfl, rfl, rfl, ?_, ?_⟩
  · unfold make_request_v2
    rw [hok]
    rfl
  · intro s hs
    simp only [List.mem_cons, List.not_mem_nil, or_false, not_or] at hs
    obtain ⟨n1, n2, n3, n4, n5, n6⟩ := hs
    simp [dictGet, STATUS_EXCEPTIONS, Ne.symm n1, Ne.symm n2, Ne.symm n3, Ne.symm n4,
      Ne.symm n5, Ne.symm n6]
  · unfold make_request_v1
    rw [hok, if_neg (show ¬(false = true) by simp)]
    split_ifs <;> rfl

/-- Claim C5 amended, witness on an unmapped 418 response without JSON. -/
theorem c5_amended_witness :
    make_request_v2 ⟨false, 418, "text/html", Value.vInt 0, "t", "teapot"⟩ =
      .error ⟨.base, 418, .bodyContent "teapot"⟩
    ∧ make_request_v1 ⟨false, 418, "text/html", Value.vInt 0, "t", "teapot"⟩ =
      .error .base := by
  have h := c5_amended ⟨false, 418, "text/html", Value.vInt 0, "t", "teapot"⟩ rfl
  exact ⟨h.1.trans rfl, (h.2.2.2.2.2.2.2.2).trans rfl⟩

theorem rest_v2_mapError_congr (sub format : String) (base : List String) (m : String)
    {kw kw' : Kwargs}
    (h : (extractIdentifiersNew IDENTIFIERS_v2 base kw).mapError (fun _ => ()) =
         (extractIdentifiersNew IDENTIFIERS_v2 base kw').mapError (fun _ => ())) :
    (construct_rest_v2 sub format base m kw).mapError PyErr.kind =
      (construct_rest_v2 sub format base m kw').mapError PyErr.kind := by
  unfold construct_rest_v2
  cases e1 : extractIdentifiersNew IDENTIFIERS_v2 base kw with
  | error a =>
    cases e2 : extractIdentifiersNew IDENTIFIERS_v2 base kw' with
    | error b => rfl
    | ok pr => rw [e1, e2] at h; simp [Except.mapError] at h
  | ok pr =>
    cases e2 : extractIdentifiersNew IDENTIFIERS_v2 base kw' with
    | error b => rw [e1, e2] at h; simp [Except.mapError] at h
    | ok pr' =>
      rw [e1, e2] at h
      simp [Except.mapError] at h
      subst h
      rfl

/-- Claim C8: a recognized identifier keyword carrying a falsy value (0 or
the empty string) is treated as not supplied: the whole request is the one
that would be built without that keyword (for the package implementation,
up to the bookkeeping payload of the model error), and on success the
keyword is in neither the path nor the query, having been popped. -/
theorem c8_falsy_identifier : ∀ (sub format : String) (p : List String) (kw : Kwargs)
    (k : String) (v : Value),
    dictGet k kw = some v → v.truthy = false →
    (k ∈ IDENTIFIERS_v1.map Prod.fst →
      construct_request_v1 sub format p kw =
        construct_request_v1 sub format p (dictRemove k kw)
      ∧ ∀ m u q b, construct_request_v1 sub format p kw = .ok (m, u, q, b) →
          dictGet k q = none)
    ∧ (k ∈ IDENTIFIERS_v2.map Prod.fst →
      (construct_request_v2 sub format p kw).mapError PyErr.kind =
        (construct_request_v2 sub format p (dictRemove k kw)).mapError PyErr.kind
      ∧ ∀ u m q b, construct_request_v2 sub format p kw = .ok (u, m, q, b) →
          dictGet k q = none) := by
  intro sub format p kw k v hget hfal
  constructor
  · intro hmem
    constructor
    · unfold construct_request_v1
      cases hl : p.getLast? with
      | none => rfl
      | some l =>
        dsimp only
        cases dictGet l VERBS with
        | some m =>
          dsimp only
          apply congrArg
          unfold construct_rest_v1
          rw [extractOld_falsy_remove IDENTIFIERS_v1 _ kw k v hmem hget hfal]
        | none =>
          dsimp only
          apply congrArg
          unfold construct_rest_v1
          rw [extractOld_falsy_remove IDENTIFIERS_v1 _ kw k v hmem hget hfal]
    · intro m u q b h
      obtain ⟨hq, _⟩ := construct_v1_ok_components sub format p kw h
      rw [hq]
      have hkd : k ≠ "data" := by
        intro he
        rw [he] at hmem
        exact absurd hmem (by decide)
      rw [dictGet_dictRemove_ne hkd]
      exact dictGet_removeKeysFrom_of_mem IDENTIFIERS_v1 kw hmem
  · intro hmem
    constructor
    · unfold construct_request_v2
      cases hl : p.getLast? with
      | none => rfl
      | some l =>
        dsimp only
        cases dictGet l VERBS with
        | some m =>
          dsimp only
          exact rest_v2_mapError_congr sub format _ m
            (extractNew_falsy_remove IDENTIFIERS_v2 _ kw k v hmem hget hfal)
        | none =>
          dsimp only
          exact rest_v2_mapError_congr sub format _ "GET"
            (extractNew_falsy_remove IDENTIFIERS_v2 _ kw k v hmem hget hfal)
    · intro u m q b h
      obtain ⟨hq, _⟩ := construct_v2_ok_components sub format p kw h
      rw [hq]
      have hkd : k ≠ "data" := by
        intro he
        rw [he] at hmem
        exact absurd hmem (by decide)
      rw [dictGet_dictRemove_ne hkd]
      exact dictGet_removeKeysFrom_of_mem IDENTIFIERS_v2 kw hmem

/-- Claim C8, witness: a falsy handle keyword behaves as if it were absent
and is dropped from the query. -/
theorem c8_falsy_identifier_witness :
    construct_request_v1 "sub" "json" ["customers"]
        [("handle", Value.vInt 0), ("page", Value.vInt 1)] =
      construct_request_v1 "sub" "json" ["customers"] [("page", Value.vInt 1)]
    ∧ dictGet "handle" ([("page", Value.vInt 1)] : Kwargs) = none := by
  have h := (c8_falsy_identifier "sub" "json" ["customers"]
    [("handle", Value.vInt 0), ("page", Value.vInt 1)] "handle" (Value.vInt 0)
    rfl (by decide)).1 (by decide)
  exact ⟨h.1, h.2 "GET" "https://sub.chargify.com/customers.json"
    [("page", Value.vInt 1)] none rfl⟩

/-- Claim C10: in the package implementation, when the extraction loop
reaches a recognized identifier keyword holding a truthy value whose bound
resource-name segment is absent from the path as it stands at that moment
(after verb removal and the earlier bindings), `path.index` raises the
lookup error instead of appending; the keyword has already been popped from
the keyword arguments when the error is raised. -/
theorem c10_absent_segment : ∀ (sub format l : String) (p base path1 : List String)
    (kw kw1 : Kwargs) (pre post : List (String × String)) (k n : String) (v : Value),
    p.getLast? = some l →
    base = (if (dictGet l VERBS).isSome then p.dropLast else p) →
    IDENTIFIERS_v2 = pre ++ (k, n) :: post →
    extractIdentifiersNew pre base kw = .ok (path1, kw1) →
    dictGet k kw1 = some v → v.truthy = true →
    pyIndex n path1 = none →
    construct_request_v2 sub format p kw = .error (.valueError (dictRemove k kw1))
    ∧ dictGet k (dictRemove k kw1) = none := by
  intro sub format l p base path1 kw kw1 pre post k n v hl hbase hids hpre hgetk htr hidx
  have hext : extractIdentifiersNew IDENTIFIERS_v2 base kw = .error (dictRemove k kw1) := by
    rw [hids, extractNew_append pre ((k, n) :: post) base kw, hpre]
    dsimp only
    rw [extractIdentifiersNew, hgetk]
    dsimp only
    rw [if_pos htr, hidx]
  rw [construct_eq_rest_v2 sub format l p kw hl, ← hbase]
  constructor
  · unfold construct_rest_v2
    rw [hext]
  · exact dictGet_dictRemove_self ..

/-- Claim C10, witness: a truthy customer id with no customers segment in
the path raises the lookup error with the keyword already popped. -/
theorem c10_absent_segment_witness :
    construct_request_v2 "sub" "json" ["subscriptions"] [("customer_id", Value.vInt 5)] =
      .error (.valueError [])
    ∧ dictGet "customer_id" ([] : Kwargs) = none := by
  have h := c10_absent_segment "sub" "json" "subscriptions" ["subscriptions"]
    ["subscriptions"] ["subscriptions"]
    [("customer_id", Value.vInt 5)] [("customer_id", Value.vInt 5)]
    []
    [("product_id", "products"),
     ("subscription_id", "subscriptions"),
     ("component_id", "components"),
     ("handle", "handle"),
     ("statement_id", "statements"),
     ("product_family_id", "product_families"),
     ("coupon_id", "coupons"),
     ("code_id", "codes"),
     ("transaction_id", "transactions"),
     ("usage_id", "usages"),
     ("migration_id", "migrations"),
     ("payment_profile_id", "payment_profiles"),
     ("invoice_id", "invoices")]
    "customer_id" "customers" (Value.vInt 5)
    rfl rfl rfl rfl rfl (by decide) rfl
  exact ⟨h.1, h.2⟩

/-- Claim C1 counterexample: with path customers,subscriptions and a truthy
customer id, the claim requires the value 7 to sit immediately after the
customers segment; the legacy implementation appends it at the end instead,
so the adjacency fails while the keyword set empties as described. -/
theorem c1_counterexample :
    construct_request_v1 "sub" "json" ["customers", "subscriptions"]
        [("customer_id", Value.vInt 7)] =
      .ok ("GET", "https://sub.chargify.com/customers/subscriptions/7.json", [], none)
    ∧ adjacentB "customers" "7"
        (extractIdentifiersOld IDENTIFIERS_v1 ["customers", "subscriptions"]
          [("customer_id", Value.vInt 7)]).1 = false := by
  constructor <;> rfl

/-- Claim C1 amended: for a recognized identifier keyword supplied with a
truthy value, the legacy implementation appends the stringified value at
the end of the path, after every original segment, regardless of where (or
whether) the bound segment occurs; the package implementation places the
value immediately after an occurrence of the bound segment whenever its
extraction succeeds, and raises the lookup error when the segment is absent
at the turn of that binding; in both implementations the keyword is popped
and never reaches the remaining keyword arguments (hence the query). -/
theorem c1_amended : ∀ (path : List String) (kw : Kwargs) (k n : String) (v : Value),
    dictGet k kw = some v → v.truthy = true →
    ((k, n) ∈ IDENTIFIERS_v1 →
      (extractIdentifiersOld IDENTIFIERS_v1 path kw).1 =
          path ++ pushedValues IDENTIFIERS_v1 kw
      ∧ v.str ∈ pushedValues IDENTIFIERS_v1 kw
      ∧ dictGet k (extractIdentifiersOld IDENTIFIERS_v1 path kw).2 = none)
    ∧ ((k, n) ∈ IDENTIFIERS_v2 →
      (∀ path1 kw1, extractIdentifiersNew IDENTIFIERS_v2 path kw = .ok (path1, kw1) →
        adjacentB n v.str path1 = true ∧ dictGet k kw1 = none)
      ∧ (∀ pre post path1 kw1, IDENTIFIERS_v2 = pre ++ (k, n) :: post →
          extractIdentifiersNew pre path kw = .ok (path1, kw1) →
          dictGet k kw1 = some v → pyIndex n path1 = none →
          extractIdentifiersNew IDENTIFIERS_v2 path kw =
            .error (dictRemove k kw1))) := by
  intro path kw k n v hget htr
  constructor
  · intro hmem
    refine ⟨?_, ?_, ?_⟩
    · rw [extractOld_spec]
    · exact pushedValues_mem IDENTIFIERS_v1 kw k n v (by decide) hmem hget htr
    · rw [extractOld_spec]
      exact dictGet_removeKeysFrom_of_mem IDENTIFIERS_v1 kw
        (List.mem_map_of_mem Prod.fst hmem)
  · intro hmem
    constructor
    · intro path1 kw1 h
      constructor
      · exact extractNew_adjacent IDENTIFIERS_v2 path path1 kw kw1 k n v
          (by decide) (by decide) hmem hget htr h
      · rw [extractNew_ok_kwargs h]
        exact dictGet_removeKeysFrom_of_mem IDENTIFIERS_v2 kw
          (List.mem_map_of_mem Prod.fst hmem)
    · intro pre post path1 kw1 hids hpre hgetk hidx
      rw [hids, extractNew_append pre ((k, n) :: post) path kw, hpre]
      dsimp only
      rw [extractIdentifiersNew, hgetk]
      dsimp only
      rw [if_pos htr, hidx]

/-- Claim C1 amended, witness: a truthy customer id next to its segment in
the package implementation, and appended at the end in the legacy one. -/
theorem c1_amended_witness :
    adjacentB "customers" "9" ["customers", "9"] = true
    ∧ dictGet "customer_id" ([] : Kwargs) = none
    ∧ (Value.vStr "9").str ∈ pushedValues IDENTIFIERS_v1 [("customer_id", Value.vStr "9")]
    ∧ (extractIdentifiersOld IDENTIFIERS_v1 ["customers"]
          [("customer_id", Value.vStr "9")]).1 =
        ["customers"] ++ pushedValues IDENTIFIERS_v1 [("customer_id", Value.vStr "9")] := by
  have h := c1_amended ["customers"] [("customer_id", Value.vStr "9")]
    "customer_id" "customers" (Value.vStr "9") rfl (by decide)
  have h1 := h.1 (by decide)
  have h2 := (h.2 (by decide)).1 ["customers", "9"] [] (by rfl)
  exact ⟨h2.1, h2.2, h1.2.1, h1.1⟩

/-- Claim C4 counterexample: the path customers,x,customers with a truthy
customer id and a falsy coupon id satisfies every condition of the claim
(non-empty path, exactly one recognized identifier with truthy value, whose
bound segment customers equals the last segment after verb removal), yet
the two implementations disagree on both the URL (the package variant
inserts after the first customers occurrence, the legacy one appends at the
end) and the query mapping (coupon_id is an identifier only for the package
variant, which pops it, while the legacy variant leaves it in the query). -/
theorem c4_counterexample :
    construct_request_v1 "sub" "json" ["customers", "x", "customers"]
        [("customer_id", Value.vInt 5), ("coupon_id", Value.vInt 0)] =
      .ok ("GET", "https://sub.chargify.com/customers/x/customers/5.json",
        [("coupon_id", Value.vInt 0)], none)
    ∧ construct_request_v2 "sub" "json" ["customers", "x", "customers"]
        [("customer_id", Value.vInt 5), ("coupon_id", Value.vInt 0)] =
      .ok ("https://sub.chargify.com/customers/5/x/customers.json", "GET", [], none)
    ∧ ("https://sub.chargify.com/customers/x/customers/5.json" : String) ≠
        "https://sub.chargify.com/customers/5/x/customers.json"
    ∧ ([("coupon_id", Value.vInt 0)] : Kwargs) ≠ [] := by
  refine ⟨rfl, rfl, by decide, by decide⟩

/-- Claim C4 amended: the two implementations produce the same method, URL,
query and body, with only the tuple component order differing, for every
non-empty path and keyword-argument set with at most one truthy recognized
identifier, provided additionally that no keyword recognized by only one of
the two identifier tables occurs in the argument set, and that the bound
segment of the truthy identifier occurs in the verb-stripped path exactly
once, namely as its last segment (its first occurrence index j satisfies
j + 1 = length). -/
theorem c4_amended : ∀ (sub format l : String) (p base : List String) (kw : Kwargs),
    p.getLast? = some l →
    base = (if (dictGet l VERBS).isSome then p.dropLast else p) →
    (∀ pr ∈ kw, pr.1 ∈ IDENTIFIERS_v2.map Prod.fst → pr.1 ∈ IDENTIFIERS_v1.map Prod.fst) →
    ((∀ pr ∈ IDENTIFIERS_v2, ∀ v, dictGet pr.1 kw = some v → v.truthy = false) →
      construct_request_v1 sub format p kw =
        .ok ((dictGet l VERBS).getD "GET", mkUrl sub format base,
          dictRemove "data" (removeKeysFrom IDENTIFIERS_v1 kw), dictGet "data" kw)
      ∧ construct_request_v2 sub format p kw =
        .ok (mkUrl sub format base, (dictGet l VERBS).getD "GET",
          dictRemove "data" (removeKeysFrom IDENTIFIERS_v1 kw), dictGet "data" kw))
    ∧ (∀ k n v j, (k, n) ∈ IDENTIFIERS_v1 → dictGet k kw = some v → v.truthy = true →
        (∀ pr ∈ IDENTIFIERS_v2, pr.1 ≠ k → ∀ v', dictGet pr.1 kw = some v' →
            v'.truthy = false) →
        pyIndex n base = some j → j + 1 = base.length →
        construct_request_v1 sub format p kw =
          .ok ((dictGet l VERBS).getD "GET", mkUrl sub format (base ++ [v.str]),
            dictRemove "data" (removeKeysFrom IDENTIFIERS_v1 kw), dictGet "data" kw)
        ∧ construct_request_v2 sub format p kw =
          .ok (mkUrl sub format (base ++ [v.str]), (dictGet l VERBS).getD "GET",
            dictRemove "data" (removeKeysFrom IDENTIFIERS_v1 kw), dictGet "data" kw)) := by
  intro sub format l p base kw hl hbase honesided
  have hsub : ∀ pr ∈ IDENTIFIERS_v1, pr ∈ IDENTIFIERS_v2 := by decide
  have hks : ∀ x ∈ IDENTIFIERS_v1.map Prod.fst, x ∈ IDENTIFIERS_v2.map Prod.fst := by decide
  have hq12 : removeKeysFrom IDENTIFIERS_v1 kw = removeKeysFrom IDENTIFIERS_v2 kw := by
    rw [removeKeysFrom_eq_filter, removeKeysFrom_eq_filter]
    refine List.filter_congr ?_
    intro pr hpr
    by_cases h2 : pr.1 ∈ IDENTIFIERS_v2.map Prod.fst
    · have h1 : pr.1 ∈ IDENTIFIERS_v1.map Prod.fst := honesided pr hpr h2
      simp [List.contains, h1, h2]
    · have h1 : pr.1 ∉ IDENTIFIERS_v1.map Prod.fst := fun hh => h2 (hks _ hh)
      simp [List.contains, h1, h2]
  have hdata1 : dictGet "data" (removeKeysFrom IDENTIFIERS_v1 kw) = dictGet "data" kw :=
    dictGet_removeKeysFrom_of_not_mem IDENTIFIERS_v1 kw (by decide)
  constructor
  · intro hfal
    have hfal1 : ∀ pr ∈ IDENTIFIERS_v1, ∀ v, dictGet pr.1 kw = some v → v.truthy = false :=
      fun pr hpr => hfal pr (hsub pr hpr)
    constructor
    · rw [construct_eq_rest_v1 sub format l p kw hl, ← hbase]
      unfold construct_rest_v1
      rw [extractOld_spec, pushedValues_falsy IDENTIFIERS_v1 kw hfal1]
      dsimp only
      rw [List.append_nil, hdata1]
    · rw [construct_eq_rest_v2 sub format l p kw hl, ← hbase]
      unfold construct_rest_v2
      rw [extractNew_falsy IDENTIFIERS_v2 base kw hfal]
      dsimp only
      rw [← hq12, hdata1]
  · intro k n v j hmem hget htr hoth hpyi hjlen
    have hoth1 : ∀ pr ∈ IDENTIFIERS_v1, pr.1 ≠ k → ∀ v', dictGet pr.1 kw = some v' →
        v'.truthy = false := fun pr hpr => hoth pr (hsub pr hpr)
    constructor
    · rw [construct_eq_rest_v1 sub format l p kw hl, ← hbase]
      unfold construct_rest_v1
      rw [extractOld_spec,
        pushedValues_one_truthy IDENTIFIERS_v1 kw k n v (by decide) hmem hget htr hoth1]
      dsimp only
      rw [hdata1]
    · rw [construct_eq_rest_v2 sub format l p kw hl, ← hbase]
      unfold construct_rest_v2
      rw [extractNew_one_truthy IDENTIFIERS_v2 base kw k n v j (by decide)
        (hsub _ hmem) hget htr hoth hpyi]
      dsimp only
      rw [hjlen, pyInsert_length, ← hq12, hdata1]

/-- Claim C4 amended, witness: a truthy customer id on the chain
customers,read, where both implementations agree on every component. -/
theorem c4_amended_witness :
    construct_request_v1 "sub" "json" ["customers", "read"]
        [("customer_id", Value.vInt 123), ("page", Value.vInt 2)] =
      .ok ("GET", "https://sub.chargify.com/customers/123.json",
        [("page", Value.vInt 2)], none)
    ∧ construct_request_v2 "sub" "json" ["customers", "read"]
        [("customer_id", Value.vInt 123), ("page", Value.vInt 2)] =
      .ok ("https://sub.chargify.com/customers/123.json", "GET",
        [("page", Value.vInt 2)], none) := by
  have h := (c4_amended "sub" "json" "read" ["customers", "read"] ["customers"]
    [("customer_id", Value.vInt 123), ("page", Value.vInt 2)] rfl rfl (by decide)).2
    "customer_id" "customers" (Value.vInt 123) 0 (by decide) rfl (by decide)
    (by
      intro pr hpr hne v' hv'
      fin_cases hpr <;> simp_all [dictGet])
    rfl rfl
  exact ⟨h.1.trans rfl, h.2.trans rfl⟩
